import Mathlib

/-!
Verification of the concurrent claim protocol of the coupon system.

The definitions below are a shallow embedding of the Go sources:
* `internal/model/coupon.go` — the data model (`Coupon`, `Claim`, requests,
  responses).  MongoDB `ObjectID`s are modelled as `Nat` (the store assigns a
  fresh one at insertion), timestamps as `Nat` ticks, and the `int32` money
  amounts as `Int` (the claims at issue do not hinge on 32-bit wrap-around,
  and MongoDB's `$inc` promotes on overflow).
* `internal/repository/mongodb_coupon.go` and `mongodb_claim.go` — the store
  primitives.  Each MongoDB command (`FindOne`, `FindOneAndUpdate`,
  `UpdateOne` with upsert, `DeleteOne`, `Find`, `InsertOne`) is atomic, so
  each primitive is one pure function on the database state.
* `internal/service/coupon_service.go` — `ClaimCoupon`, `CreateCoupon`,
  `GetCouponDetails`.  Transient storage faults are modelled by boolean
  fault flags, one per repository call: a faulted call leaves the state
  unchanged and reports `Err.storageFault` (Go: a non-domain `error`).
  `time.Parse(time.RFC3339, ·)` is abstracted as a `String → Option Nat`
  parameter.

Concurrency: every claim request performs four atomic store calls
(find coupon, upsert claim, conditional decrement, delete claim); an
interleaved execution is a schedule of such atomic steps, formalised by the
`Sys`/`step`/`run` machine further down.
-/

namespace CouponSystem

/-- Model of `model.Coupon` (internal/model/coupon.go). -/
structure Coupon where
  id : Nat
  name : String
  amount : Int
  remainingAmount : Int
  createdAt : Nat
  expiresAt : Nat
  isActive : Bool
  updatedAt : Nat
deriving DecidableEq, Repr

/-- Model of `model.Claim` (internal/model/coupon.go). -/
structure Claim where
  userId : String
  couponId : Nat
  couponName : String
  createdAt : Nat
deriving DecidableEq, Repr

/-- Model of `model.ClaimCouponRequest`. -/
structure ClaimCouponRequest where
  userId : String
  couponName : String
deriving DecidableEq, Repr

/-- Model of `model.CreateCouponRequest` (fields as used by
`CouponService.CreateCoupon`: `Name`, `Amount`, `ExpiresAt`). -/
structure CreateCouponRequest where
  name : String
  amount : Int
  expiresAt : String
deriving DecidableEq, Repr

/-- Model of `model.CouponDetailsResponse`. -/
structure CouponDetailsResponse where
  name : String
  amount : Int
  remainingAmount : Int
  claimedBy : List String
deriving DecidableEq, Repr

/-- The domain errors of `pkg/errors/errors.go`, plus `storageFault` standing
for any non-domain driver/infrastructure error. -/
inductive Err where
  | couponNotFound
  | couponAlreadyExists
  | alreadyClaimed
  | noStock
  | storageFault
deriving DecidableEq, Repr

/-- The two MongoDB collections (`coupons`, `claims`) plus the id generator
for inserted coupon documents. -/
structure DB where
  coupons : List Coupon
  claims : List Claim
  nextId : Nat
deriving DecidableEq, Repr

def dbEmpty : DB := ⟨[], [], 0⟩

/-! ### Repository layer -/

/-- `mongodbCouponRepository.GetCouponByName`: `FindOne {name: name}`;
`ErrNoDocuments` becomes `ErrCouponNotFound`. -/
def getCouponByName (db : DB) (name : String) : Except Err Coupon :=
  match db.coupons.find? (fun c => c.name == name) with
  | some c => .ok c
  | none => .error .couponNotFound

/-- The document update performed by `DecrementStock`'s `FindOneAndUpdate`:
find the (unique) document matching
`{_id: id, remaining_amount: {$gte: amount}}` and apply
`{$inc: {remaining_amount: -amount}}`; `none` when no document matches. -/
def decCoupons (id : Nat) (amount : Int) : List Coupon → Option (List Coupon)
  | [] => none
  | c :: cs =>
    if c.id == id && decide (amount ≤ c.remainingAmount) then
      some ({ c with remainingAmount := c.remainingAmount - amount } :: cs)
    else
      match decCoupons id amount cs with
      | some cs' => some (c :: cs')
      | none => none

/-- `mongodbCouponRepository.DecrementStock`: atomic conditional decrement;
when no document matches (insufficient stock *or* unknown id) the driver
reports `ErrNoDocuments`, which the code maps to `ErrNoStock`. -/
def decrementStock (db : DB) (couponID : Nat) (amount : Int) : DB × Option Err :=
  match decCoupons couponID amount db.coupons with
  | some cs => ({ db with coupons := cs }, none)
  | none => (db, some .noStock)

/-- `mongodbClaimRepository.CreateClaimIfNotExists`: `UpdateOne` upsert on
`{user_id, coupon_id}` with `$setOnInsert`.  Returns the new state, the
`created` flag (`UpsertedCount > 0`) and the error (`ErrAlreadyClaimed` when
the document already existed). -/
def createClaimIfNotExists (db : DB) (claim : Claim) : DB × Bool × Option Err :=
  if db.claims.any (fun c => c.userId == claim.userId && c.couponId == claim.couponId) then
    (db, false, some .alreadyClaimed)
  else
    ({ db with claims := db.claims ++ [claim] }, true, none)

/-- `mongodbClaimRepository.DeleteClaim`: `DeleteOne {user_id, coupon_id}`
(removes the first matching document; never a domain error). -/
def deleteClaim (db : DB) (userID : String) (couponID : Nat) : DB :=
  { db with
    claims := db.claims.eraseP (fun c => c.userId == userID && c.couponId == couponID) }

/-- `mongodbClaimRepository.GetClaimsByCouponName`: `Find {coupon_name}`. -/
def getClaimsByCouponName (db : DB) (couponName : String) : List Claim :=
  db.claims.filter (fun c => c.couponName == couponName)

/-- `mongodbCouponRepository.CreateCoupon`: `InsertOne`; the unique index on
`coupons.name` turns a duplicate name into `ErrCouponAlreadyExists`; the
store assigns the `_id` of the inserted document. -/
def createCouponRepo (db : DB) (coupon : Coupon) : DB × Option Err :=
  if db.coupons.any (fun c => c.name == coupon.name) then
    (db, some .couponAlreadyExists)
  else
    ({ db with
        coupons := db.coupons ++ [{ coupon with id := db.nextId }],
        nextId := db.nextId + 1 }, none)

/-! ### Service layer -/

/-- Fault flags for the four repository calls made by
`CouponService.ClaimCoupon`; a set flag makes that call fail with
`Err.storageFault` leaving the store unchanged. -/
structure ClaimFaults where
  getCoupon : Bool
  createClaim : Bool
  decrement : Bool
  deleteClaim : Bool
deriving DecidableEq, Repr

def noClaimFaults : ClaimFaults := ⟨false, false, false, false⟩

/-- `CouponService.ClaimCoupon` (internal/service/coupon_service.go):
resolve the coupon by name, atomically reserve the claim, then decrement the
stock; on a decrement failure run the compensating `DeleteClaim`, whose own
error the code discards (`_ = s.claimRepo.DeleteClaim(...)`) before
returning the decrement error.  The first component is the returned `error`
(`none` = claimed). -/
def ClaimCoupon (f : ClaimFaults) (db : DB) (req : ClaimCouponRequest) (now : Nat) :
    Option Err × DB :=
  match (if f.getCoupon then .error Err.storageFault else getCouponByName db req.couponName) with
  | .error e => (some e, db)
  | .ok coupon =>
    let claim : Claim := ⟨req.userId, coupon.id, req.couponName, now⟩
    let r1 := if f.createClaim then (db, false, some Err.storageFault)
              else createClaimIfNotExists db claim
    match r1.2.2 with
    | some e => (some e, r1.1)
    | none =>
      if !r1.2.1 then (some Err.alreadyClaimed, r1.1)
      else
        let r2 := if f.decrement then (r1.1, some Err.storageFault)
                  else decrementStock r1.1 coupon.id 1
        match r2.2 with
        | some e =>
          let db3 := if f.deleteClaim then r2.1 else deleteClaim r2.1 req.userId coupon.id
          (some e, db3)
        | none => (none, r2.1)

/-- Default coupon lifetime used by `CreateCoupon`: 30 days (in seconds). -/
def defaultExpiry : Nat := 30 * 24 * 60 * 60

/-- `CouponService.CreateCoupon`: parse the optional RFC3339 expiry (a parse
failure silently falls back to the 30-day default), build the coupon with
`RemainingAmount = Amount` and `IsActive = true`, and insert it.
`parseRFC3339` abstracts Go's `time.Parse(time.RFC3339, ·)`. -/
def CreateCoupon (parseRFC3339 : String → Option Nat) (now : Nat) (db : DB)
    (req : CreateCouponRequest) : Except Err Coupon × DB :=
  let expiresAt :=
    if req.expiresAt ≠ "" then
      match parseRFC3339 req.expiresAt with
      | some t => t
      | none => now + defaultExpiry
    else now + defaultExpiry
  let coupon : Coupon :=
    ⟨0, req.name, req.amount, req.amount, now, expiresAt, true, now⟩
  match createCouponRepo db coupon with
  | (db', none) => (.ok coupon, db')
  | (db', some e) => (.error e, db')

/-- Fault flags for the two repository calls made by `GetCouponDetails`. -/
structure DetailFaults where
  getCoupon : Bool
  getClaims : Bool
deriving DecidableEq, Repr

def noDetailFaults : DetailFaults := ⟨false, false⟩

/-- `CouponService.GetCouponDetails`: any error from `GetCouponByName` is
replaced by `ErrCouponNotFound`; an error from `GetClaimsByCouponName` is
returned as-is; otherwise the response joins the coupon with the user ids of
its claims. -/
def GetCouponDetails (f : DetailFaults) (db : DB) (name : String) :
    Except Err CouponDetailsResponse :=
  match (if f.getCoupon then .error Err.storageFault else getCouponByName db name) with
  | .error _ => .error .couponNotFound
  | .ok coupon =>
    match (if f.getClaims then Except.error Err.storageFault
           else .ok (getClaimsByCouponName db name)) with
    | .error e => .error e
    | .ok claims =>
      .ok ⟨coupon.name, coupon.amount, coupon.remainingAmount,
           claims.map (fun c => c.userId)⟩

/-! ### Interleaved execution of concurrent claim requests

`ClaimCoupon` performs (up to) four atomic store calls; between calls,
arbitrarily many other requests may run.  A request in flight is a small
state machine whose transitions are exactly those store calls, in the order
`ClaimCoupon` issues them; a concurrent execution of `N` requests is an
arbitrary schedule of single atomic steps. -/

/-- The four terminal outcomes of a claim request. -/
inductive Outcome where
  | claimed
  | alreadyClaimed
  | noStock
  | notFound
deriving DecidableEq, Repr

/-- Position of a claim request inside `ClaimCoupon`'s sequence of atomic
store calls. -/
inductive Phase where
  | start
  | gotCoupon (cid : Nat)
  | reserved (cid : Nat)
  | compensate (cid : Nat)
  | finished (o : Outcome)
deriving DecidableEq, Repr

/-- One in-flight claim request: its actor and its current phase. -/
structure ReqState where
  actor : String
  phase : Phase
deriving DecidableEq, Repr

/-- Whole-system state: the store plus every request's progress. -/
structure Sys where
  db : DB
  reqs : List ReqState
deriving DecidableEq, Repr

/-- Execute the next atomic store call of one request (the calls and their
order are those of `ClaimCoupon`, fault-free). -/
def stepReq (couponName : String) (db : DB) (r : ReqState) : DB × ReqState :=
  match r.phase with
  | .start =>
    match getCouponByName db couponName with
    | .error _ => (db, { r with phase := .finished .notFound })
    | .ok c => (db, { r with phase := .gotCoupon c.id })
  | .gotCoupon cid =>
    let res := createClaimIfNotExists db ⟨r.actor, cid, couponName, 0⟩
    match res.2.2 with
    | some _ => (res.1, { r with phase := .finished .alreadyClaimed })
    | none =>
      if res.2.1 then (res.1, { r with phase := .reserved cid })
      else (res.1, { r with phase := .finished .alreadyClaimed })
  | .reserved cid =>
    let res := decrementStock db cid 1
    match res.2 with
    | none => (res.1, { r with phase := .finished .claimed })
    | some _ => (res.1, { r with phase := .compensate cid })
  | .compensate cid => (deleteClaim db r.actor cid, { r with phase := .finished .noStock })
  | .finished _ => (db, r)

/-- Run one atomic step of the request at position `i` (out-of-range indices
do nothing). -/
def step (couponName : String) (s : Sys) (i : Nat) : Sys :=
  match s.reqs.get? i with
  | none => s
  | some r =>
    let res := stepReq couponName s.db r
    ⟨res.1, s.reqs.set i res.2⟩

/-- Run a whole schedule of atomic steps. -/
def run (couponName : String) (s : Sys) (sched : List Nat) : Sys :=
  sched.foldl (step couponName) s

/-- The initial system state: one freshly stored coupon, no claims, and one
`start`-phase request per actor. -/
def initSys (cpn : Coupon) (actors : List String) : Sys :=
  ⟨⟨[cpn], [], cpn.id + 1⟩, actors.map (fun a => ⟨a, .start⟩)⟩

def isClaimedPh (p : Phase) : Bool := p == .finished .claimed

def isNoStockPh (p : Phase) : Bool := p == .finished .noStock

def isFinished (p : Phase) : Bool :=
  match p with
  | .finished _ => true
  | _ => false

/-- Number of requests that ended `claimed`. -/
def nClaimed (reqs : List ReqState) : Nat :=
  reqs.countP (fun r => isClaimedPh r.phase)

/-- Number of requests that ended `noStock`. -/
def nNoStock (reqs : List ReqState) : Nat :=
  reqs.countP (fun r => isNoStockPh r.phase)

/-- Phases that hold a claim record in the store: reserved, awaiting
compensation, or successfully claimed. -/
def holding (p : Phase) : Bool :=
  match p with
  | .reserved _ => true
  | .compensate _ => true
  | .finished .claimed => true
  | _ => false

/-- Phases witnessing that the stock already ran out. -/
def stalled (p : Phase) : Bool :=
  match p with
  | .compensate _ => true
  | .finished .noStock => true
  | _ => false

/-- The phases reachable when the store holds the single coupon `cid`. -/
def okPhase (cid : Nat) (p : Phase) : Bool :=
  match p with
  | .start => true
  | .gotCoupon c => c == cid
  | .reserved c => c == cid
  | .compensate c => c == cid
  | .finished .claimed => true
  | .finished .noStock => true
  | .finished _ => false

/-! ### Sequences of core operations (for the stock invariant) -/

/-- One core operation at the service boundary. -/
inductive Op where
  | create (req : CreateCouponRequest) (now : Nat)
  | claim (req : ClaimCouponRequest) (now : Nat)
  | decrement (id : Nat) (amount : Int)
  | status (name : String)

/-- Apply one core operation to the store (reads leave it unchanged). -/
def applyOp (parseRFC3339 : String → Option Nat) (db : DB) : Op → DB
  | .create req now => (CreateCoupon parseRFC3339 now db req).2
  | .claim req now => (ClaimCoupon noClaimFaults db req now).2
  | .decrement id amount => (decrementStock db id amount).1
  | .status _ => db

/-- Stock invariant on a store: every coupon has
`0 ≤ remaining_amount ≤ amount`. -/
def goodDB (db : DB) : Prop :=
  ∀ c ∈ db.coupons, 0 ≤ c.remainingAmount ∧ c.remainingAmount ≤ c.amount

instance : DecidablePred goodDB := fun db =>
  inferInstanceAs (Decidable (∀ c ∈ db.coupons, _ ∧ _))

/-- Operations with nonnegative amounts: creations with `amount ≥ 0` and
decrements with `amount ≥ 0`. -/
def opOK : Op → Prop
  | .create req _ => 0 ≤ req.amount
  | .decrement _ amount => 0 ≤ amount
  | _ => True

/-! ## Properties of the conditional decrement -/

instance {ε α : Type} [DecidableEq ε] [DecidableEq α] : DecidableEq (Except ε α) := fun a b =>
  match a, b with
  | .ok x, .ok y =>
    if h : x = y then .isTrue (by rw [h]) else .isFalse (fun hh => h (Except.ok.inj hh))
  | .error x, .error y =>
    if h : x = y then .isTrue (by rw [h]) else .isFalse (fun hh => h (Except.error.inj hh))
  | .ok _, .error _ => .isFalse (fun hh => Except.noConfusion hh)
  | .error _, .ok _ => .isFalse (fun hh => Except.noConfusion hh)

theorem decCoupons_eq_none (id : Nat) (amount : Int) (l : List Coupon)
    (h : ∀ c ∈ l, c.id = id → c.remainingAmount < amount) :
    decCoupons id amount l = none := by
  induction l with
  | nil => rfl
  | cons c cs ih =>
    have hguard : (c.id == id && decide (amount ≤ c.remainingAmount)) = false := by
      by_cases hid : c.id = id
      · have hlt := h c (List.mem_cons_self _ _) hid
        simp [hid, not_le.mpr hlt]
      · simp [hid]
    have hcs := ih (fun c' hc' => h c' (List.mem_cons_of_mem _ hc'))
    simp [decCoupons, hguard, hcs]

theorem decCoupons_eq_some (id : Nat) (amount : Int) (l : List Coupon) (c : Coupon)
    (hmem : c ∈ l) (hid : c.id = id) (hge : amount ≤ c.remainingAmount)
    (huniq : l.countP (fun c' => c'.id == id) ≤ 1) :
    ∃ l₁ l₂, l = l₁ ++ c :: l₂ ∧
      decCoupons id amount l =
        some (l₁ ++ { c with remainingAmount := c.remainingAmount - amount } :: l₂) := by
  induction l with
  | nil => cases hmem
  | cons d ds ih =>
    by_cases hguard : (d.id == id && decide (amount ≤ d.remainingAmount)) = true
    · have hdid : d.id = id := by
        have hb := hguard
        rw [Bool.and_eq_true] at hb
        simpa using hb.1
      have hcd : c = d := by
        rcases List.mem_cons.1 hmem with h | h
        · exact h
        · exfalso
          have h1 : 0 < ds.countP (fun c' => c'.id == id) :=
            List.countP_pos_iff.2 ⟨c, h, by simp [hid]⟩
          have h2 : (d :: ds).countP (fun c' => c'.id == id)
              = ds.countP (fun c' => c'.id == id) + 1 := by
            simp [List.countP_cons, hdid]
          omega
      subst hcd
      exact ⟨[], ds, by simp, by simp [decCoupons, hguard]⟩
    · have hguard' : (d.id == id && decide (amount ≤ d.remainingAmount)) = false :=
        Bool.not_eq_true _ ▸ eq_false_of_ne_true hguard
      have hcds : c ∈ ds := by
        rcases List.mem_cons.1 hmem with h | h
        · subst h
          simp [hid, hge] at hguard
        · exact h
      have huniq' : ds.countP (fun c' => c'.id == id) ≤ 1 := by
        have hmono : ds.countP (fun c' => c'.id == id)
            ≤ (d :: ds).countP (fun c' => c'.id == id) := by
          simp [List.countP_cons]
        omega
      obtain ⟨l₁, l₂, hsplit, hres⟩ := ih hcds huniq'
      refine ⟨d :: l₁, l₂, by simp [hsplit], ?_⟩
      simp [decCoupons, hguard', hres]

/-- C3 (corrected).  Contract of the conditional decrement: a stored coupon
with sufficient stock is decremented by exactly `amount`; a stored coupon
with insufficient stock is untouched and `noStock` is reported; an id with
no stored coupon yields that *same* `noStock` error (the code folds the
driver's `ErrNoDocuments` into `ErrNoStock`, so a missing id is not a
distinct `NotFound` outcome). -/
theorem decrementStock_contract (db : DB) (id : Nat) (amount : Int) :
    (∀ c, c ∈ db.coupons → c.id = id → amount ≤ c.remainingAmount →
      db.coupons.countP (fun c' => c'.id == id) ≤ 1 →
      ∃ l₁ l₂, db.coupons = l₁ ++ c :: l₂ ∧
        decrementStock db id amount =
          ({ db with
              coupons := l₁ ++ { c with remainingAmount := c.remainingAmount - amount } :: l₂ },
            none)) ∧
    ((∀ c ∈ db.coupons, c.id = id → c.remainingAmount < amount) →
      decrementStock db id amount = (db, some Err.noStock)) ∧
    ((∀ c ∈ db.coupons, c.id ≠ id) →
      decrementStock db id amount = (db, some Err.noStock)) := by
  refine ⟨?_, ?_, ?_⟩
  · intro c hmem hid hge huniq
    obtain ⟨l₁, l₂, hsplit, hres⟩ := decCoupons_eq_some id amount db.coupons c hmem hid hge huniq
    exact ⟨l₁, l₂, hsplit, by simp [decrementStock, hres]⟩
  · intro h
    simp [decrementStock, decCoupons_eq_none id amount db.coupons h]
  · intro h
    have h' : ∀ c ∈ db.coupons, c.id = id → c.remainingAmount < amount :=
      fun c hc hcid => absurd hcid (h c hc)
    simp [decrementStock, decCoupons_eq_none id amount db.coupons h']

def cW3 : Coupon := ⟨0, "x", 5, 3, 0, 0, true, 0⟩

def dbW3 : DB := ⟨[cW3], [], 1⟩

theorem decrementStock_contract_witness :
    (∃ l₁ l₂, dbW3.coupons = l₁ ++ cW3 :: l₂ ∧
      decrementStock dbW3 0 2 =
        ({ dbW3 with
            coupons := l₁ ++ { cW3 with remainingAmount := cW3.remainingAmount - 2 } :: l₂ },
          none)) ∧
    decrementStock dbW3 0 7 = (dbW3, some Err.noStock) ∧
    decrementStock dbW3 9 1 = (dbW3, some Err.noStock) :=
  ⟨(decrementStock_contract dbW3 0 2).1 cW3 (by decide) (by decide) (by decide) (by decide),
   (decrementStock_contract dbW3 0 7).2.1 (by decide),
   (decrementStock_contract dbW3 9 1).2.2 (by decide)⟩

/-- C3 counterexample.  On an id with no stored coupon the decrement returns
`noStock` — the very same error as insufficient stock — and not a distinct
`couponNotFound`, contrary to the claimed `NotFound` outcome. -/
theorem decrementStock_missing_id_not_distinct :
    decrementStock dbEmpty 0 1 = (dbEmpty, some Err.noStock) ∧
    Err.noStock ≠ Err.couponNotFound := by decide

/-! ## Early exits of the claim protocol (C2) -/

/-- C2 (confirmed).  `ClaimCoupon` reserves the claim slot before touching
stock, and its early exits are side-effect free: an absent coupon name
returns `couponNotFound` with both stores unchanged, and an existing
(actor, coupon) claim record returns `alreadyClaimed` with the whole store
— in particular `remaining_amount` — unchanged. -/
theorem claimCoupon_early_exits (db : DB) (req : ClaimCouponRequest) (now : Nat) :
    ((∀ c ∈ db.coupons, c.name ≠ req.couponName) →
      ClaimCoupon noClaimFaults db req now = (some Err.couponNotFound, db)) ∧
    (∀ cpn, getCouponByName db req.couponName = Except.ok cpn →
      (∃ c ∈ db.claims, c.userId = req.userId ∧ c.couponId = cpn.id) →
      ClaimCoupon noClaimFaults db req now = (some Err.alreadyClaimed, db)) := by
  constructor
  · intro h
    have hf : db.coupons.find? (fun c => c.name == req.couponName) = none := by
      rw [List.find?_eq_none]
      intro c hc
      simpa using h c hc
    simp [ClaimCoupon, noClaimFaults, getCouponByName, hf]
  · intro cpn hcpn hex
    have hany : db.claims.any
        (fun c => c.userId == req.userId && c.couponId == cpn.id) = true := by
      rw [List.any_eq_true]
      obtain ⟨c, hc, h1, h2⟩ := hex
      exact ⟨c, hc, by simp [h1, h2]⟩
    simp [ClaimCoupon, noClaimFaults, hcpn, createClaimIfNotExists, hany]

def cpnW2 : Coupon := ⟨0, "x", 1, 1, 0, 0, true, 0⟩

def dbW2 : DB := ⟨[cpnW2], [⟨"u", 0, "x", 0⟩], 1⟩

theorem claimCoupon_early_exits_witness :
    ClaimCoupon noClaimFaults dbEmpty ⟨"u", "x"⟩ 0 = (some Err.couponNotFound, dbEmpty) ∧
    ClaimCoupon noClaimFaults dbW2 ⟨"u", "x"⟩ 0 = (some Err.alreadyClaimed, dbW2) :=
  ⟨(claimCoupon_early_exits dbEmpty ⟨"u", "x"⟩ 0).1 (by decide),
   (claimCoupon_early_exits dbW2 ⟨"u", "x"⟩ 0).2 cpnW2 (by decide) (by decide)⟩

/-! ## The compensating release and its failure mode (C5) -/

/-- C5 (corrected).  The compensating `DeleteClaim`'s error is discarded
(`_ =` in the source): a claim attempt in which the release fails returns
exactly the same error as one in which the release succeeds, so the caller
cannot distinguish the two; on the compensation path a failed release leaves
the stale claim record in the ledger. -/
theorem claimCoupon_release_failure_swallowed (db : DB) (req : ClaimCouponRequest)
    (now : Nat) :
    (ClaimCoupon ⟨false, false, false, true⟩ db req now).1 =
      (ClaimCoupon noClaimFaults db req now).1 ∧
    (∀ cpn, getCouponByName db req.couponName = Except.ok cpn →
      (∀ c ∈ db.claims, ¬(c.userId = req.userId ∧ c.couponId = cpn.id)) →
      (∀ c ∈ db.coupons, c.id = cpn.id → c.remainingAmount < 1) →
      ClaimCoupon ⟨false, false, false, true⟩ db req now =
        (some Err.noStock,
         { db with claims := db.claims ++ [⟨req.userId, cpn.id, req.couponName, now⟩] })) := by
  constructor
  · cases hgc : getCouponByName db req.couponName with
    | error e => simp [ClaimCoupon, noClaimFaults, hgc]
    | ok cpn =>
      by_cases hany : db.claims.any
          (fun c => c.userId == req.userId && c.couponId == cpn.id) = true
      · simp [ClaimCoupon, noClaimFaults, hgc, createClaimIfNotExists, hany]
      · have hany' := eq_false_of_ne_true hany
        cases hdec : decCoupons cpn.id 1 db.coupons with
        | some cs =>
          simp [ClaimCoupon, noClaimFaults, hgc, createClaimIfNotExists, hany',
            decrementStock, hdec]
        | none =>
          simp [ClaimCoupon, noClaimFaults, hgc, createClaimIfNotExists, hany',
            decrementStock, hdec]
  · intro cpn hgc hnoclaim hnostock
    have hany : db.claims.any
        (fun c => c.userId == req.userId && c.couponId == cpn.id) = false := by
      refine eq_false_of_ne_true ?_
      rw [List.any_eq_true]
      rintro ⟨c, hc, hbeq⟩
      rw [Bool.and_eq_true] at hbeq
      exact hnoclaim c hc ⟨by simpa using hbeq.1, by simpa using hbeq.2⟩
    have hdec : decCoupons cpn.id 1 db.coupons = none :=
      decCoupons_eq_none cpn.id 1 db.coupons hnostock
    simp [ClaimCoupon, noClaimFaults, hgc, createClaimIfNotExists, hany,
      decrementStock, hdec]

def cpnW5 : Coupon := ⟨0, "x", 1, 0, 0, 0, true, 0⟩

def dbW5 : DB := ⟨[cpnW5], [], 1⟩

theorem claimCoupon_release_failure_swallowed_witness :
    (ClaimCoupon ⟨false, false, false, true⟩ dbW5 ⟨"u", "x"⟩ 0).1 =
      (ClaimCoupon noClaimFaults dbW5 ⟨"u", "x"⟩ 0).1 ∧
    ClaimCoupon ⟨false, false, false, true⟩ dbW5 ⟨"u", "x"⟩ 0 =
      (some Err.noStock, { dbW5 with claims := dbW5.claims ++ [⟨"u", 0, "x", 0⟩] }) :=
  ⟨(claimCoupon_release_failure_swallowed dbW5 ⟨"u", "x"⟩ 0).1,
   (claimCoupon_release_failure_swallowed dbW5 ⟨"u", "x"⟩ 0).2 cpnW5
     (by decide) (by decide) (by decide)⟩

/-- C5 counterexample.  A storage fault during the compensating release is
silently swallowed: the faulted run returns exactly the same result as the
successful-compensation run, while the stores are left different (the stale
claim record survives) — the two cases are *not* distinguishable from the
outcome. -/
theorem claimCoupon_release_failure_indistinguishable :
    (ClaimCoupon ⟨false, false, false, true⟩ ⟨[⟨0, "y", 1, 0, 0, 0, true, 0⟩], [], 1⟩
        ⟨"v", "y"⟩ 0).1 =
      (ClaimCoupon noClaimFaults ⟨[⟨0, "y", 1, 0, 0, 0, true, 0⟩], [], 1⟩ ⟨"v", "y"⟩ 0).1 ∧
    (ClaimCoupon ⟨false, false, false, true⟩ ⟨[⟨0, "y", 1, 0, 0, 0, true, 0⟩], [], 1⟩
        ⟨"v", "y"⟩ 0).2 ≠
      (ClaimCoupon noClaimFaults ⟨[⟨0, "y", 1, 0, 0, 0, true, 0⟩], [], 1⟩ ⟨"v", "y"⟩ 0).2 := by
  decide

/-! ## Idempotence on success (C7) -/

theorem claimCoupon_success_shape (db : DB) (req : ClaimCouponRequest) (now : Nat)
    (hsucc : (ClaimCoupon noClaimFaults db req now).1 = none) :
    ∃ cpn cs, getCouponByName db req.couponName = Except.ok cpn ∧
      db.claims.any (fun c => c.userId == req.userId && c.couponId == cpn.id) = false ∧
      decCoupons cpn.id 1 db.coupons = some cs ∧
      (ClaimCoupon noClaimFaults db req now).2 =
        { coupons := cs,
          claims := db.claims ++ [⟨req.userId, cpn.id, req.couponName, now⟩],
          nextId := db.nextId } := by
  cases hgc : getCouponByName db req.couponName with
  | error e => simp [ClaimCoupon, noClaimFaults, hgc] at hsucc
  | ok cpn =>
    by_cases hany : db.claims.any
        (fun c => c.userId == req.userId && c.couponId == cpn.id) = true
    · simp [ClaimCoupon, noClaimFaults, hgc, createClaimIfNotExists, hany] at hsucc
    · have hany' := eq_false_of_ne_true hany
      cases hdec : decCoupons cpn.id 1 db.coupons with
      | none =>
        simp [ClaimCoupon, noClaimFaults, hgc, createClaimIfNotExists, hany',
          decrementStock, hdec] at hsucc
      | some cs =>
        refine ⟨cpn, cs, rfl, hany', hdec, ?_⟩
        simp [ClaimCoupon, noClaimFaults, hgc, createClaimIfNotExists, hany',
          decrementStock, hdec]

theorem getCouponByName_ok_iff (db : DB) (n : String) (cpn : Coupon) :
    getCouponByName db n = Except.ok cpn ↔
      db.coupons.find? (fun c => c.name == n) = some cpn := by
  unfold getCouponByName
  cases db.coupons.find? (fun c => c.name == n) <;> simp

theorem claimCoupon_already (db : DB) (req : ClaimCouponRequest) (now : Nat) (cpn : Coupon)
    (hgc : getCouponByName db req.couponName = Except.ok cpn)
    (hany : db.claims.any (fun c => c.userId == req.userId && c.couponId == cpn.id) = true) :
    ClaimCoupon noClaimFaults db req now = (some Err.alreadyClaimed, db) := by
  simp [ClaimCoupon, noClaimFaults, hgc, createClaimIfNotExists, hany]

theorem decCoupons_find?_name (id : Nat) (amt : Int) (l l' : List Coupon) (n : String)
    (h : decCoupons id amt l = some l') :
    (l'.find? (fun c => c.name == n)).map (fun c => c.id) =
      (l.find? (fun c => c.name == n)).map (fun c => c.id) := by
  induction l generalizing l' with
  | nil => simp [decCoupons] at h
  | cons d ds ih =>
    by_cases hguard : (d.id == id && decide (amt ≤ d.remainingAmount)) = true
    · rw [decCoupons, if_pos hguard] at h
      cases h
      by_cases hn : (d.name == n) = true
      · simp [List.find?_cons, hn]
      · have hn' := eq_false_of_ne_true hn
        simp [List.find?_cons, hn']
    · have hguard' := eq_false_of_ne_true hguard
      rw [decCoupons, if_neg (by simp [hguard'])] at h
      cases hrec : decCoupons id amt ds with
      | none => rw [hrec] at h; cases h
      | some ds' =>
        rw [hrec] at h
        cases h
        by_cases hn : (d.name == n) = true
        · simp [List.find?_cons, hn]
        · have hn' := eq_false_of_ne_true hn
          simp [List.find?_cons, hn', ih ds' hrec]

/-- C7 (confirmed).  Once a claim for `(actor, coupon)` has succeeded,
replaying the identical request returns `alreadyClaimed`, leaves the whole
store (in particular `remaining_amount`) unchanged, and the ledger holds
exactly one record for the pair. -/
theorem claimCoupon_idempotent_on_success (db : DB) (req : ClaimCouponRequest)
    (now now' : Nat) (hsucc : (ClaimCoupon noClaimFaults db req now).1 = none) :
    ClaimCoupon noClaimFaults ((ClaimCoupon noClaimFaults db req now).2) req now' =
      (some Err.alreadyClaimed, (ClaimCoupon noClaimFaults db req now).2) ∧
    (∀ cpn, getCouponByName db req.couponName = Except.ok cpn →
      ((ClaimCoupon noClaimFaults db req now).2).claims.countP
        (fun c => c.userId == req.userId && c.couponId == cpn.id) = 1) := by
  obtain ⟨cpn, cs, hgc, hany, hdec, hdb⟩ := claimCoupon_success_shape db req now hsucc
  have hfind := decCoupons_find?_name cpn.id 1 db.coupons cs req.couponName hdec
  have hf0 : db.coupons.find? (fun c => c.name == req.couponName) = some cpn :=
    (getCouponByName_ok_iff db req.couponName cpn).1 hgc
  obtain ⟨cpn', hfind', hid'⟩ : ∃ cpn',
      (cs.find? (fun c => c.name == req.couponName)) = some cpn' ∧ cpn'.id = cpn.id := by
    rw [hf0] at hfind
    cases hf' : cs.find? (fun c => c.name == req.couponName) with
    | none => rw [hf'] at hfind; cases hfind
    | some c1 =>
      rw [hf'] at hfind
      exact ⟨c1, rfl, by simpa using hfind⟩
  constructor
  · rw [hdb]
    refine claimCoupon_already _ req now' cpn' ?_ ?_
    · rw [getCouponByName_ok_iff]
      exact hfind'
    · rw [List.any_eq_true]
      exact ⟨⟨req.userId, cpn.id, req.couponName, now⟩, by simp, by simp [hid']⟩
  · intro cpn0 hgc0
    have hcpn0 : cpn0 = cpn := by
      rw [hgc0] at hgc
      exact Except.ok.inj hgc
    subst hcpn0
    have hzero : db.claims.countP
        (fun c => c.userId == req.userId && c.couponId == cpn0.id) = 0 := by
      rw [List.countP_eq_zero]
      intro c hc hbeq
      have hcontra : db.claims.any
          (fun c => c.userId == req.userId && c.couponId == cpn0.id) = true :=
        List.any_eq_true.2 ⟨c, hc, hbeq⟩
      rw [hany] at hcontra
      cases hcontra
    rw [hdb]
    simp [List.countP_append, hzero, List.countP_cons]

def dbW7 : DB := ⟨[⟨0, "x", 2, 2, 0, 0, true, 0⟩], [], 1⟩

theorem claimCoupon_idempotent_on_success_witness :
    ClaimCoupon noClaimFaults ((ClaimCoupon noClaimFaults dbW7 ⟨"u", "x"⟩ 0).2) ⟨"u", "x"⟩ 1 =
      (some Err.alreadyClaimed, (ClaimCoupon noClaimFaults dbW7 ⟨"u", "x"⟩ 0).2) ∧
    ((ClaimCoupon noClaimFaults dbW7 ⟨"u", "x"⟩ 0).2).claims.countP
      (fun c => c.userId == "u" && c.couponId == 0) = 1 :=
  ⟨(claimCoupon_idempotent_on_success dbW7 ⟨"u", "x"⟩ 0 1 (by decide)).1,
   (claimCoupon_idempotent_on_success dbW7 ⟨"u", "x"⟩ 0 1 (by decide)).2
     ⟨0, "x", 2, 2, 0, 0, true, 0⟩ (by decide)⟩

/-! ## The query facade (C8) -/

/-- C8 (corrected).  Fault-free, `GetCouponDetails` returns the joined
response whose `claimedBy` is exactly the user ids of the live claim records
for the coupon name, and `couponNotFound` is its only error, returned
exactly when the name is absent.  However, a storage fault during the coupon
lookup is *translated* into `couponNotFound` (the code replaces any lookup
error), while a fault during the claims lookup is surfaced unchanged. -/
theorem getCouponDetails_contract (db : DB) (name : String) :
    (∀ cpn, getCouponByName db name = Except.ok cpn →
      GetCouponDetails noDetailFaults db name =
        Except.ok ⟨cpn.name, cpn.amount, cpn.remainingAmount,
          (db.claims.filter (fun c => c.couponName == name)).map (fun c => c.userId)⟩) ∧
    ((∀ c ∈ db.coupons, c.name ≠ name) →
      GetCouponDetails noDetailFaults db name = Except.error Err.couponNotFound) ∧
    GetCouponDetails ⟨true, false⟩ db name = Except.error Err.couponNotFound ∧
    (∀ cpn, getCouponByName db name = Except.ok cpn →
      GetCouponDetails ⟨false, true⟩ db name = Except.error Err.storageFault) := by
  refine ⟨?_, ?_, ?_, ?_⟩
  · intro cpn h
    simp [GetCouponDetails, noDetailFaults, h, getClaimsByCouponName]
  · intro h
    have hf : db.coupons.find? (fun c => c.name == name) = none := by
      rw [List.find?_eq_none]
      intro c hc
      simpa using h c hc
    simp [GetCouponDetails, noDetailFaults, getCouponByName, hf]
  · simp [GetCouponDetails]
  · intro cpn h
    simp [GetCouponDetails, h]

def cpnW8 : Coupon := ⟨0, "x", 3, 2, 0, 0, true, 0⟩

def dbW8 : DB := ⟨[cpnW8], [⟨"u", 0, "x", 0⟩], 1⟩

theorem getCouponDetails_contract_witness :
    GetCouponDetails noDetailFaults dbW8 "x" =
      Except.ok ⟨cpnW8.name, cpnW8.amount, cpnW8.remainingAmount,
        (dbW8.claims.filter (fun c => c.couponName == "x")).map (fun c => c.userId)⟩ ∧
    GetCouponDetails noDetailFaults dbEmpty "x" = Except.error Err.couponNotFound ∧
    GetCouponDetails ⟨false, true⟩ dbW8 "x" = Except.error Err.storageFault :=
  ⟨(getCouponDetails_contract dbW8 "x").1 cpnW8 (by decide),
   (getCouponDetails_contract dbEmpty "x").2.1 (by decide),
   (getCouponDetails_contract dbW8 "x").2.2.2 cpnW8 (by decide)⟩

/-- C8 counterexample.  With the coupon present in the store, a storage
fault during the coupon lookup comes back as `couponNotFound` — an
underlying error kind translated into a different kind before reaching the
caller, contrary to the claim. -/
theorem getCouponDetails_fault_translated :
    GetCouponDetails noDetailFaults ⟨[⟨0, "z", 1, 1, 0, 0, true, 0⟩], [], 1⟩ "z" =
      Except.ok ⟨"z", 1, 1, []⟩ ∧
    GetCouponDetails ⟨true, false⟩ ⟨[⟨0, "z", 1, 1, 0, 0, true, 0⟩], [], 1⟩ "z" =
      Except.error Err.couponNotFound ∧
    Err.couponNotFound ≠ Err.storageFault := by decide

/-! ## Coupon creation with a malformed expiry (C10) -/

/-- C10 (confirmed).  `CreateCoupon` never fails on a malformed expiry: when
`ExpiresAt` is non-empty but unparsable, it silently substitutes the 30-day
default and still creates the coupon, with `RemainingAmount = Amount` and
`IsActive = true`. -/
theorem createCoupon_malformed_expiry_defaults (parseRFC3339 : String → Option Nat)
    (now : Nat) (db : DB) (req : CreateCouponRequest)
    (hne : req.expiresAt ≠ "") (hbad : parseRFC3339 req.expiresAt = none)
    (hfresh : ∀ c ∈ db.coupons, c.name ≠ req.name) :
    CreateCoupon parseRFC3339 now db req =
      (Except.ok ⟨0, req.name, req.amount, req.amount, now, now + defaultExpiry, true, now⟩,
       { coupons := db.coupons ++
           [⟨db.nextId, req.name, req.amount, req.amount, now, now + defaultExpiry, true, now⟩],
         claims := db.claims,
         nextId := db.nextId + 1 }) := by
  have hany : db.coupons.any (fun c => c.name == req.name) = false := by
    refine eq_false_of_ne_true ?_
    rw [List.any_eq_true]
    rintro ⟨c, hc, hbeq⟩
    exact hfresh c hc (by simpa using hbeq)
  simp [CreateCoupon, hne, hbad, createCouponRepo, hany]

theorem createCoupon_malformed_expiry_defaults_witness :
    CreateCoupon (fun _ => none) 100 dbEmpty ⟨"y", 7, "not-rfc3339"⟩ =
      (Except.ok ⟨0, "y", 7, 7, 100, 100 + defaultExpiry, true, 100⟩,
       ⟨[⟨0, "y", 7, 7, 100, 100 + defaultExpiry, true, 100⟩], [], 1⟩) :=
  createCoupon_malformed_expiry_defaults (fun _ => none) 100 dbEmpty
    ⟨"y", 7, "not-rfc3339"⟩ (by decide) rfl (by decide)

/-! ## ClaimCoupon ignores `is_active` and `expires_at` (C9) -/

/-- Rewrite a coupon's `is_active` flag and `expires_at` timestamp,
leaving every other field alone. -/
def setFlags (f : Coupon → Bool) (g : Coupon → Nat) (c : Coupon) : Coupon :=
  { c with isActive := f c, expiresAt := g c }

theorem find?_name_map_setFlags (f : Coupon → Bool) (g : Coupon → Nat) (n : String)
    (l : List Coupon) :
    (l.map (setFlags f g)).find? (fun c => c.name == n) =
      (l.find? (fun c => c.name == n)).map (setFlags f g) := by
  induction l with
  | nil => simp
  | cons d ds ih =>
    by_cases hn : (d.name == n) = true
    · simp [List.find?_cons, setFlags, hn]
    · have hn' := eq_false_of_ne_true hn
      simp [List.find?_cons, setFlags, hn', ih]

theorem decCoupons_map_setFlags_isSome (id : Nat) (amt : Int) (f : Coupon → Bool)
    (g : Coupon → Nat) (l : List Coupon) :
    (decCoupons id amt (l.map (setFlags f g))).isSome = (decCoupons id amt l).isSome := by
  induction l with
  | nil => simp [decCoupons]
  | cons d ds ih =>
    by_cases hguard : (d.id == id && decide (amt ≤ d.remainingAmount)) = true
    · simp [decCoupons, setFlags, hguard]
    · have hguard' := eq_false_of_ne_true hguard
      simp only [List.map_cons]
      rw [decCoupons, decCoupons]
      rw [if_neg (by simp [setFlags, hguard']), if_neg (by simp [hguard'])]
      cases h1 : decCoupons id amt (ds.map (setFlags f g)) <;>
        cases h2 : decCoupons id amt ds <;>
          simp [h1, h2] at ih ⊢

theorem decCoupons_isSome_of_mem (id : Nat) (amt : Int) (l : List Coupon) (c : Coupon)
    (hmem : c ∈ l) (hid : c.id = id) (hge : amt ≤ c.remainingAmount) :
    (decCoupons id amt l).isSome = true := by
  induction l with
  | nil => cases hmem
  | cons d ds ih =>
    by_cases hguard : (d.id == id && decide (amt ≤ d.remainingAmount)) = true
    · simp [decCoupons, hguard]
    · have hguard' := eq_false_of_ne_true hguard
      have hcds : c ∈ ds := by
        rcases List.mem_cons.1 hmem with h | h
        · subst h
          simp [hid, hge] at hguard
        · exact h
      have := ih hcds
      rw [decCoupons, if_neg (by simp [hguard'])]
      cases h1 : decCoupons id amt ds <;> simp [h1] at this ⊢

/-- C9 (confirmed).  The outcome of `ClaimCoupon` is independent of the
coupons' `is_active` flags and `expires_at` timestamps: rewriting those two
fields arbitrarily across the store never changes the returned result; in
particular an inactive, already-expired coupon with remaining stock and no
prior claim by the actor is still successfully claimed. -/
theorem claimCoupon_ignores_active_and_expiry (db : DB) (req : ClaimCouponRequest)
    (now : Nat) (f : Coupon → Bool) (g : Coupon → Nat) :
    (ClaimCoupon noClaimFaults
        { db with coupons := db.coupons.map (setFlags f g) } req now).1 =
      (ClaimCoupon noClaimFaults db req now).1 ∧
    (∀ cpn, getCouponByName db req.couponName = Except.ok cpn →
      cpn.isActive = false → cpn.expiresAt < now → 1 ≤ cpn.remainingAmount →
      (∀ c ∈ db.claims, ¬(c.userId = req.userId ∧ c.couponId = cpn.id)) →
      (ClaimCoupon noClaimFaults db req now).1 = none) := by
  constructor
  · have hfind := find?_name_map_setFlags f g req.couponName db.coupons
    cases hgc : db.coupons.find? (fun c => c.name == req.couponName) with
    | none =>
      rw [hgc] at hfind
      simp only [Option.map_none'] at hfind
      simp [ClaimCoupon, noClaimFaults, getCouponByName, hgc, hfind]
    | some cpn =>
      rw [hgc] at hfind
      simp only [Option.map_some'] at hfind
      have hgc1 : getCouponByName db req.couponName = Except.ok cpn := by
        rw [getCouponByName_ok_iff]; exact hgc
      have hgc2 : getCouponByName { db with coupons := db.coupons.map (setFlags f g) }
          req.couponName = Except.ok (setFlags f g cpn) := by
        rw [getCouponByName_ok_iff]; exact hfind
      have hid : (setFlags f g cpn).id = cpn.id := rfl
      by_cases hany : db.claims.any
          (fun c => c.userId == req.userId && c.couponId == cpn.id) = true
      · simp [ClaimCoupon, noClaimFaults, hgc1, hgc2, createClaimIfNotExists,
          setFlags, hany]
      · have hany' := eq_false_of_ne_true hany
        have hsome := decCoupons_map_setFlags_isSome cpn.id 1 f g db.coupons
        cases hdec : decCoupons cpn.id 1 db.coupons with
        | some cs =>
          rw [hdec] at hsome
          simp only [Option.isSome_some] at hsome
          obtain ⟨cs', hcs'⟩ : ∃ cs',
              decCoupons cpn.id 1 (db.coupons.map (setFlags f g)) = some cs' := by
            cases h : decCoupons cpn.id 1 (db.coupons.map (setFlags f g)) with
            | none => rw [h] at hsome; simp at hsome
            | some x => exact ⟨x, rfl⟩
          simp [ClaimCoupon, noClaimFaults, hgc1, hgc2, createClaimIfNotExists,
            setFlags, hany', decrementStock, hdec, hcs']
        | none =>
          rw [hdec] at hsome
          simp only [Option.isSome_none] at hsome
          have hnone : decCoupons cpn.id 1 (db.coupons.map (setFlags f g)) = none := by
            cases h : decCoupons cpn.id 1 (db.coupons.map (setFlags f g)) with
            | none => rfl
            | some x => rw [h] at hsome; simp at hsome
          simp [ClaimCoupon, noClaimFaults, hgc1, hgc2, createClaimIfNotExists,
            setFlags, hany', decrementStock, hdec, hnone]
  · intro cpn hgc hact hexp hrem hnoclaim
    have hany : db.claims.any
        (fun c => c.userId == req.userId && c.couponId == cpn.id) = false := by
      refine eq_false_of_ne_true ?_
      rw [List.any_eq_true]
      rintro ⟨c, hc, hbeq⟩
      rw [Bool.and_eq_true] at hbeq
      exact hnoclaim c hc ⟨by simpa using hbeq.1, by simpa using hbeq.2⟩
    have hmem : cpn ∈ db.coupons :=
      List.mem_of_find?_eq_some ((getCouponByName_ok_iff db req.couponName cpn).1 hgc)
    have hsome := decCoupons_isSome_of_mem cpn.id 1 db.coupons cpn hmem rfl hrem
    obtain ⟨cs, hcs⟩ : ∃ cs, decCoupons cpn.id 1 db.coupons = some cs := by
      cases h : decCoupons cpn.id 1 db.coupons with
      | none => rw [h] at hsome; simp at hsome
      | some x => exact ⟨x, rfl⟩
    simp [ClaimCoupon, noClaimFaults, hgc, createClaimIfNotExists, hany,
      decrementStock, hcs]

def cpnW9 : Coupon := ⟨0, "x", 2, 2, 0, 3, false, 0⟩

def dbW9 : DB := ⟨[cpnW9], [], 1⟩

theorem claimCoupon_ignores_active_and_expiry_witness :
    (ClaimCoupon noClaimFaults
        { dbW9 with coupons := dbW9.coupons.map (setFlags (fun _ => true) (fun _ => 99)) }
        ⟨"u", "x"⟩ 7).1 =
      (ClaimCoupon noClaimFaults dbW9 ⟨"u", "x"⟩ 7).1 ∧
    (ClaimCoupon noClaimFaults dbW9 ⟨"u", "x"⟩ 7).1 = none :=
  ⟨(claimCoupon_ignores_active_and_expiry dbW9 ⟨"u", "x"⟩ 7
      (fun _ => true) (fun _ => 99)).1,
   (claimCoupon_ignores_active_and_expiry dbW9 ⟨"u", "x"⟩ 7
      (fun _ => true) (fun _ => 99)).2 cpnW9
     (by decide) (by decide) (by decide) (by decide) (by decide)⟩

/-! ## The stock invariant over operation sequences (C6) -/

instance : DecidablePred opOK := fun op =>
  match op with
  | .create req _ => inferInstanceAs (Decidable (0 ≤ req.amount))
  | .claim _ _ => inferInstanceAs (Decidable True)
  | .decrement _ a => inferInstanceAs (Decidable (0 ≤ a))
  | .status _ => inferInstanceAs (Decidable True)

theorem decCoupons_elems (id : Nat) (amt : Int) (l l' : List Coupon)
    (h : decCoupons id amt l = some l') :
    ∀ c' ∈ l', c' ∈ l ∨ ∃ c ∈ l, amt ≤ c.remainingAmount ∧
      c' = { c with remainingAmount := c.remainingAmount - amt } := by
  induction l generalizing l' with
  | nil => simp [decCoupons] at h
  | cons d ds ih =>
    by_cases hguard : (d.id == id && decide (amt ≤ d.remainingAmount)) = true
    · rw [decCoupons, if_pos hguard] at h
      cases h
      intro c' hc'
      rcases List.mem_cons.1 hc' with h | h
      · refine Or.inr ⟨d, List.mem_cons_self _ _, ?_, h⟩
        rw [Bool.and_eq_true] at hguard
        simpa using hguard.2
      · exact Or.inl (List.mem_cons_of_mem _ h)
    · have hguard' := eq_false_of_ne_true hguard
      rw [decCoupons, if_neg (by simp [hguard'])] at h
      cases hrec : decCoupons id amt ds with
      | none => rw [hrec] at h; cases h
      | some ds' =>
        rw [hrec] at h
        cases h
        intro c' hc'
        rcases List.mem_cons.1 hc' with h | h
        · exact Or.inl (h ▸ List.mem_cons_self _ _)
        · rcases ih ds' hrec c' h with h1 | ⟨c, hc, hge, heq⟩
          · exact Or.inl (List.mem_cons_of_mem _ h1)
          · exact Or.inr ⟨c, List.mem_cons_of_mem _ hc, hge, heq⟩

theorem decCoupons_good (id : Nat) (amt : Int) (l l' : List Coupon)
    (h : decCoupons id amt l = some l') (hamt : 0 ≤ amt)
    (hl : ∀ c ∈ l, 0 ≤ c.remainingAmount ∧ c.remainingAmount ≤ c.amount) :
    ∀ c' ∈ l', 0 ≤ c'.remainingAmount ∧ c'.remainingAmount ≤ c'.amount := by
  intro c' hc'
  rcases decCoupons_elems id amt l l' h c' hc' with hmem | ⟨c, hc, hge, heq⟩
  · exact hl c' hmem
  · subst heq
    have hgood := hl c hc
    constructor
    · simp only []
      omega
    · simp only []
      omega

/-- Which store a fault-free `ClaimCoupon` run can produce, as far as the
coupons collection is concerned: untouched, or one conditional decrement
by 1. -/
theorem claimCoupon_coupons_shape (db : DB) (req : ClaimCouponRequest) (now : Nat) :
    ((ClaimCoupon noClaimFaults db req now).2).coupons = db.coupons ∨
    ∃ id cs, decCoupons id 1 db.coupons = some cs ∧
      ((ClaimCoupon noClaimFaults db req now).2).coupons = cs := by
  cases hgc : getCouponByName db req.couponName with
  | error e => simp [ClaimCoupon, noClaimFaults, hgc]
  | ok cpn =>
    by_cases hany : db.claims.any
        (fun c => c.userId == req.userId && c.couponId == cpn.id) = true
    · simp [ClaimCoupon, noClaimFaults, hgc, createClaimIfNotExists, hany]
    · have hany' := eq_false_of_ne_true hany
      cases hdec : decCoupons cpn.id 1 db.coupons with
      | some cs =>
        refine Or.inr ⟨cpn.id, cs, hdec, ?_⟩
        simp [ClaimCoupon, noClaimFaults, hgc, createClaimIfNotExists, hany',
          decrementStock, hdec]
      | none =>
        refine Or.inl ?_
        simp [ClaimCoupon, noClaimFaults, hgc, createClaimIfNotExists, hany',
          decrementStock, hdec, deleteClaim]

theorem applyOp_good (parseRFC3339 : String → Option Nat) (db : DB) (op : Op)
    (hdb : goodDB db) (hop : opOK op) :
    goodDB (applyOp parseRFC3339 db op) := by
  cases op with
  | status n => exact hdb
  | decrement id amt =>
    have hamt : (0 : Int) ≤ amt := hop
    cases hdec : decCoupons id amt db.coupons with
    | none =>
      simp only [applyOp, decrementStock, hdec]
      exact hdb
    | some cs =>
      simp only [applyOp, decrementStock, hdec]
      exact fun c' hc' => decCoupons_good id amt db.coupons cs hdec hamt hdb c' hc'
  | claim req now =>
    rcases claimCoupon_coupons_shape db req now with hsame | ⟨id, cs, hdec, hcs⟩
    · intro c' hc'
      simp only [applyOp] at hc'
      rw [hsame] at hc'
      exact hdb c' hc'
    · intro c' hc'
      simp only [applyOp] at hc'
      rw [hcs] at hc'
      exact decCoupons_good id 1 db.coupons cs hdec (by omega) hdb c' hc'
  | create req now =>
    have hamt : (0 : Int) ≤ req.amount := hop
    by_cases hdup : db.coupons.any (fun c => c.name == req.name) = true
    · simp only [applyOp, CreateCoupon, createCouponRepo, hdup, if_pos]
      exact hdb
    · have hdup' := eq_false_of_ne_true hdup
      simp only [applyOp, CreateCoupon, createCouponRepo, hdup', Bool.false_eq_true,
        if_false]
      intro c' hc'
      rcases List.mem_append.1 hc' with h | h
      · exact hdb c' h
      · rcases List.mem_singleton.1 h with rfl
        exact ⟨hamt, le_refl _⟩

/-- Exactly what one conditional decrement does to the coupons collection:
either some coupon with the requested id and `remaining_amount ≥ amount` is
decremented by exactly `amount` with everything else untouched, or every
coupon with that id has insufficient stock (the decrement would take it
below zero) and nothing matches. -/
theorem decCoupons_cases (id : Nat) (amount : Int) (l : List Coupon) :
    (∃ l₁ c l₂, l = l₁ ++ c :: l₂ ∧ c.id = id ∧ amount ≤ c.remainingAmount ∧
      decCoupons id amount l =
        some (l₁ ++ { c with remainingAmount := c.remainingAmount - amount } :: l₂)) ∨
    ((∀ c ∈ l, c.id = id → c.remainingAmount < amount) ∧
      decCoupons id amount l = none) := by
  induction l with
  | nil =>
    right
    exact ⟨by simp, rfl⟩
  | cons d ds ih =>
    by_cases hguard : (d.id == id && decide (amount ≤ d.remainingAmount)) = true
    · left
      have hb := hguard
      rw [Bool.and_eq_true] at hb
      refine ⟨[], d, ds, rfl, by simpa using hb.1, by simpa using hb.2, ?_⟩
      rw [decCoupons, if_pos hguard]
      rfl
    · have hguard' := eq_false_of_ne_true hguard
      rcases ih with ⟨l₁, c, l₂, hsp, hid, hge, hres⟩ | ⟨hall, hres⟩
      · left
        refine ⟨d :: l₁, c, l₂, by rw [hsp]; rfl, hid, hge, ?_⟩
        rw [decCoupons, if_neg (by simp [hguard']), hres]
        rfl
      · right
        constructor
        · intro c hc hcid
          rcases List.mem_cons.1 hc with rfl | hmem
          · by_contra hlt
            push_neg at hlt
            exact hguard (by simp [hcid, hlt])
          · exact hall c hmem hcid
        · rw [decCoupons, if_neg (by simp [hguard']), hres]

/-- The store after the first `n` core operations of `ops`. -/
def runOps (parseRFC3339 : String → Option Nat) (db : DB) (ops : List Op) (n : Nat) : DB :=
  (ops.take n).foldl (applyOp parseRFC3339) db

theorem runOps_succ (parseRFC3339 : String → Option Nat) (db : DB) (ops : List Op)
    (n : Nat) (op : Op) (h : ops.get? n = some op) :
    runOps parseRFC3339 db ops (n + 1) =
      applyOp parseRFC3339 (runOps parseRFC3339 db ops n) op := by
  unfold runOps
  rw [List.take_succ, ← List.get?_eq_getElem?, h]
  simp [List.foldl_append]

theorem runOps_stop (parseRFC3339 : String → Option Nat) (db : DB) (ops : List Op)
    (n : Nat) (h : ops.get? n = none) :
    runOps parseRFC3339 db ops (n + 1) = runOps parseRFC3339 db ops n := by
  unfold runOps
  rw [List.take_succ, ← List.get?_eq_getElem?, h]
  simp

theorem runOps_good (parseRFC3339 : String → Option Nat) (db : DB) (ops : List Op)
    (hdb : goodDB db) (hops : ∀ op ∈ ops, opOK op) (n : Nat) :
    goodDB (runOps parseRFC3339 db ops n) := by
  induction n with
  | zero => simpa [runOps] using hdb
  | succ n ih =>
    cases h : ops.get? n with
    | none =>
      rw [runOps_stop parseRFC3339 db ops n h]
      exact ih
    | some op =>
      rw [runOps_succ parseRFC3339 db ops n op h]
      exact applyOp_good parseRFC3339 _ op ih (hops op (List.get?_mem h))

/-- C6 (corrected).  Stock invariant, over every sequence of core operations
(create, claim, decrement, status) whose creations and decrements carry
nonnegative amounts: `0 ≤ remaining_amount ≤ amount` holds at every point of
the sequence; a decrement step either subtracts *exactly* the requested
amount from one coupon with sufficient stock, touching nothing else, or —
when every coupon with that id would be taken below zero — is rejected and
changes the store not at all; a claim step changes the coupons only by such
an exact decrement of `1`; creation only appends a fresh coupon with
`remaining = amount`; a status read changes nothing. -/
theorem stock_invariant_preserved (parseRFC3339 : String → Option Nat) (db : DB)
    (ops : List Op) (hdb : goodDB db) (hops : ∀ op ∈ ops, opOK op) :
    (∀ n : Nat, goodDB (runOps parseRFC3339 db ops n)) ∧
    (∀ n id amount, ops.get? n = some (Op.decrement id amount) →
      (∃ l₁ c l₂, (runOps parseRFC3339 db ops n).coupons = l₁ ++ c :: l₂ ∧
        c.id = id ∧ amount ≤ c.remainingAmount ∧
        runOps parseRFC3339 db ops (n + 1) =
          { runOps parseRFC3339 db ops n with
            coupons := l₁ ++ { c with remainingAmount := c.remainingAmount - amount } :: l₂ }) ∨
      ((∀ c ∈ (runOps parseRFC3339 db ops n).coupons,
          c.id = id → c.remainingAmount < amount) ∧
        runOps parseRFC3339 db ops (n + 1) = runOps parseRFC3339 db ops n)) ∧
    (∀ n req now, ops.get? n = some (Op.claim req now) →
      (runOps parseRFC3339 db ops (n + 1)).coupons =
          (runOps parseRFC3339 db ops n).coupons ∨
      ∃ l₁ c l₂, (runOps parseRFC3339 db ops n).coupons = l₁ ++ c :: l₂ ∧
        (1 : Int) ≤ c.remainingAmount ∧
        (runOps parseRFC3339 db ops (n + 1)).coupons =
          l₁ ++ { c with remainingAmount := c.remainingAmount - 1 } :: l₂) ∧
    (∀ n req now, ops.get? n = some (Op.create req now) →
      (runOps parseRFC3339 db ops (n + 1)).coupons =
          (runOps parseRFC3339 db ops n).coupons ∨
      ∃ c, (runOps parseRFC3339 db ops (n + 1)).coupons =
          (runOps parseRFC3339 db ops n).coupons ++ [c] ∧
        c.remainingAmount = c.amount) ∧
    (∀ n name, ops.get? n = some (Op.status name) →
      runOps parseRFC3339 db ops (n + 1) = runOps parseRFC3339 db ops n) := by
  refine ⟨runOps_good parseRFC3339 db ops hdb hops, ?_, ?_, ?_, ?_⟩
  · intro n id amount h
    rw [runOps_succ parseRFC3339 db ops n _ h]
    rcases decCoupons_cases id amount (runOps parseRFC3339 db ops n).coupons with
      ⟨l₁, c, l₂, hsp, hid, hge, hres⟩ | ⟨hall, hres⟩
    · left
      refine ⟨l₁, c, l₂, hsp, hid, hge, ?_⟩
      simp [applyOp, decrementStock, hres]
    · right
      refine ⟨hall, ?_⟩
      simp [applyOp, decrementStock, hres]
  · intro n req now h
    rw [runOps_succ parseRFC3339 db ops n _ h]
    rcases claimCoupon_coupons_shape (runOps parseRFC3339 db ops n) req now with
      hsame | ⟨cid, cs, hdec, hcs⟩
    · left
      simpa [applyOp] using hsame
    · rcases decCoupons_cases cid 1 (runOps parseRFC3339 db ops n).coupons with
        ⟨l₁, c, l₂, hsp, hid, hge, hres⟩ | ⟨hall, hres⟩
      · right
        rw [hres] at hdec
        cases hdec
        refine ⟨l₁, c, l₂, hsp, hge, ?_⟩
        simpa [applyOp] using hcs
      · rw [hres] at hdec
        cases hdec
  · intro n req now h
    rw [runOps_succ parseRFC3339 db ops n _ h]
    by_cases hdup : (runOps parseRFC3339 db ops n).coupons.any
        (fun c => c.name == req.name) = true
    · left
      simp [applyOp, CreateCoupon, createCouponRepo, hdup]
    · right
      have hdup' := eq_false_of_ne_true hdup
      simp only [applyOp, CreateCoupon, createCouponRepo, hdup', Bool.false_eq_true,
        if_false]
      exact ⟨_, rfl, rfl⟩
  · intro n name h
    rw [runOps_succ parseRFC3339 db ops n _ h]
    rfl

def opsW6 : List Op :=
  [.create ⟨"w", 2, ""⟩ 0, .claim ⟨"u", "w"⟩ 1, .decrement 0 1, .status "w"]

theorem stock_invariant_preserved_witness :
    (∀ n : Nat, goodDB (runOps (fun _ => none) dbEmpty opsW6 n)) ∧
    (∀ n id amount, opsW6.get? n = some (Op.decrement id amount) →
      (∃ l₁ c l₂, (runOps (fun _ => none) dbEmpty opsW6 n).coupons = l₁ ++ c :: l₂ ∧
        c.id = id ∧ amount ≤ c.remainingAmount ∧
        runOps (fun _ => none) dbEmpty opsW6 (n + 1) =
          { runOps (fun _ => none) dbEmpty opsW6 n with
            coupons := l₁ ++ { c with remainingAmount := c.remainingAmount - amount } :: l₂ }) ∨
      ((∀ c ∈ (runOps (fun _ => none) dbEmpty opsW6 n).coupons,
          c.id = id → c.remainingAmount < amount) ∧
        runOps (fun _ => none) dbEmpty opsW6 (n + 1) =
          runOps (fun _ => none) dbEmpty opsW6 n)) ∧
    (∀ n req now, opsW6.get? n = some (Op.claim req now) →
      (runOps (fun _ => none) dbEmpty opsW6 (n + 1)).coupons =
          (runOps (fun _ => none) dbEmpty opsW6 n).coupons ∨
      ∃ l₁ c l₂, (runOps (fun _ => none) dbEmpty opsW6 n).coupons = l₁ ++ c :: l₂ ∧
        (1 : Int) ≤ c.remainingAmount ∧
        (runOps (fun _ => none) dbEmpty opsW6 (n + 1)).coupons =
          l₁ ++ { c with remainingAmount := c.remainingAmount - 1 } :: l₂) ∧
    (∀ n req now, opsW6.get? n = some (Op.create req now) →
      (runOps (fun _ => none) dbEmpty opsW6 (n + 1)).coupons =
          (runOps (fun _ => none) dbEmpty opsW6 n).coupons ∨
      ∃ c, (runOps (fun _ => none) dbEmpty opsW6 (n + 1)).coupons =
          (runOps (fun _ => none) dbEmpty opsW6 n).coupons ++ [c] ∧
        c.remainingAmount = c.amount) ∧
    (∀ n name, opsW6.get? n = some (Op.status name) →
      runOps (fun _ => none) dbEmpty opsW6 (n + 1) =
        runOps (fun _ => none) dbEmpty opsW6 n) :=
  stock_invariant_preserved (fun _ => none) dbEmpty opsW6 (by decide) (by decide)

/-- C6 counterexample.  The decrement primitive accepts a negative amount:
`remaining_amount ≥ amount` holds trivially, and the `$inc` by `-amount`
*increases* the stock above `amount` — the claimed invariant
`0 ≤ remaining ≤ total` and "only ever decreased" fail without a
nonnegativity restriction on the operation amounts. -/
theorem stock_invariant_negative_amount :
    goodDB ⟨[⟨0, "x", 1, 1, 0, 0, true, 0⟩], [], 1⟩ ∧
    ¬ goodDB (applyOp (fun _ => none) ⟨[⟨0, "x", 1, 1, 0, 0, true, 0⟩], [], 1⟩
        (Op.decrement 0 (-5))) := by decide

/-! ## Generic counting lemmas for the interleaved-execution proofs -/

theorem countP_set_balance {α : Type} (p : α → Bool) (l : List α) :
    ∀ (i : Nat) (x : α) (h : i < l.length),
    (l.set i x).countP p + (if p (l.get ⟨i, h⟩) then 1 else 0) =
      l.countP p + (if p x then 1 else 0) := by
  induction l with
  | nil => intro i x h; simp at h
  | cons a as ih =>
    intro i x h
    cases i with
    | zero =>
      simp only [List.set, List.countP_cons, List.get]
      omega
    | succ i =>
      have hlen : i < as.length := by simpa using h
      have hrec := ih i x hlen
      simp only [List.set, List.countP_cons, List.get]
      omega

theorem countP_set_eq {α : Type} (p : α → Bool) (l : List α) (i : Nat) (x : α)
    (h : i < l.length) (hp : p (l.get ⟨i, h⟩) = p x) :
    (l.set i x).countP p = l.countP p := by
  have hbal := countP_set_balance p l i x h
  rw [hp] at hbal
  omega

theorem set_get?_self {α : Type} (l : List α) (i : Nat) (r : α)
    (h : l.get? i = some r) : l.set i r = l := by
  induction l generalizing i with
  | nil => simp at h
  | cons a as ih =>
    cases i with
    | zero =>
      simp only [List.get?] at h
      cases h
      rfl
    | succ i =>
      simp only [List.get?] at h
      simp only [List.set]
      rw [ih i h]

theorem countP_eraseP_disjoint {α : Type} (p q : α → Bool) (l : List α)
    (hdisj : ∀ c ∈ l, p c = true → q c = false) :
    (l.eraseP p).countP q = l.countP q := by
  induction l with
  | nil => rfl
  | cons a as ih =>
    rw [List.eraseP_cons]
    cases hpa : p a with
    | true =>
      have hqa := hdisj a (List.mem_cons_self _ _) hpa
      simp [List.countP_cons, hqa]
    | false =>
      have ih' := ih (fun c hc => hdisj c (List.mem_cons_of_mem _ hc))
      simp [List.countP_cons, ih']

theorem countP_eraseP_aligned {α : Type} (p q : α → Bool) (l : List α)
    (hal : ∀ c ∈ l, p c = q c) (hpos : 0 < l.countP q) :
    (l.eraseP p).countP q + 1 = l.countP q := by
  induction l with
  | nil => simp at hpos
  | cons a as ih =>
    rw [List.eraseP_cons]
    cases hpa : p a with
    | true =>
      have hqa : q a = true := (hal a (List.mem_cons_self _ _)).symm.trans hpa
      simp [List.countP_cons, hqa]
    | false =>
      have hqa : q a = false := (hal a (List.mem_cons_self _ _)).symm.trans hpa
      have hpos' : 0 < as.countP q := by
        rw [List.countP_cons] at hpos
        simpa [hqa] using hpos
      have ih' := ih (fun c hc => hal c (List.mem_cons_of_mem _ hc)) hpos'
      simp [List.countP_cons, hqa, ih']

theorem countP_actor_unique (l : List ReqState) (hnd : (l.map ReqState.actor).Nodup)
    (i : Nat) (h : i < l.length) (q : Phase → Bool) :
    l.countP (fun r => r.actor == (l.get ⟨i, h⟩).actor && q r.phase) =
      if q ((l.get ⟨i, h⟩).phase) then 1 else 0 := by
  induction l generalizing i with
  | nil => simp at h
  | cons a as ih =>
    rw [List.map_cons, List.nodup_cons] at hnd
    cases i with
    | zero =>
      have hzero : as.countP (fun r => r.actor == a.actor && q r.phase) = 0 := by
        rw [List.countP_eq_zero]
        intro r hr hcontra
        rw [Bool.and_eq_true] at hcontra
        have heq : r.actor = a.actor := by simpa using hcontra.1
        exact hnd.1 (heq ▸ List.mem_map_of_mem ReqState.actor hr)
      simp only [List.get, List.countP_cons, hzero]
      simp
    | succ i =>
      have hlen : i < as.length := by simpa using h
      have hane : (a.actor == (as.get ⟨i, hlen⟩).actor) = false := by
        refine eq_false_of_ne_true ?_
        intro hcontra
        have heq : a.actor = (as.get ⟨i, hlen⟩).actor := by simpa using hcontra
        exact hnd.1 (heq ▸ List.mem_map_of_mem ReqState.actor
          (List.get_mem as i hlen))
      have ih' := ih hnd.2 i hlen
      simp only [List.get, List.countP_cons, ih', hane, Bool.false_and]
      simp

/-! ## The concurrency invariant of the claim protocol (C1, C4) -/

/-- The stored coupon with its remaining stock overridden. -/
def setRem (cpn : Coupon) (v : Int) : Coupon := { cpn with remainingAmount := v }

/-- Invariant tying the store to the progress of the `N` concurrent claim
requests, for a single coupon `cpn` that started with `K` units and no
claims.  `remaining = K - #claimed`; the claims collection holds exactly one
record per request currently holding a reservation or a completed claim;
once anyone has run out of stock, all `K` units are gone. -/
structure Inv (cpn : Coupon) (K : Nat) (actors : List String) (s : Sys) : Prop where
  hact : s.reqs.map ReqState.actor = actors
  hcoup : s.db.coupons = [setRem cpn ((K : Int) - (nClaimed s.reqs : Int))]
  hfields : ∀ c ∈ s.db.claims, c.couponId = cpn.id ∧ c.couponName = cpn.name
  hcount : ∀ a : String, s.db.claims.countP (fun c => c.userId == a) =
    s.reqs.countP (fun r => r.actor == a && holding r.phase)
  hphase : ∀ r ∈ s.reqs, okPhase cpn.id r.phase = true
  hfrozen : (∃ r ∈ s.reqs, stalled r.phase = true) → nClaimed s.reqs = K
  hbound : nClaimed s.reqs ≤ K

theorem map_actor_set (l : List ReqState) (i : Nat) (r r' : ReqState)
    (hget : l.get? i = some r) (hactor : r'.actor = r.actor) :
    (l.set i r').map ReqState.actor = l.map ReqState.actor := by
  rw [List.map_set]
  apply set_get?_self
  rw [List.get?_map, hget]
  simp [hactor]

theorem getCouponByName_inv (db : DB) (cpn : Coupon) (v : Int)
    (hcoup : db.coupons = [setRem cpn v]) :
    getCouponByName db cpn.name = Except.ok (setRem cpn v) := by
  rw [getCouponByName, hcoup]
  simp [setRem]

theorem inv_init (cpn : Coupon) (K : Nat) (actors : List String)
    (hrem : cpn.remainingAmount = (K : Int)) :
    Inv cpn K actors (initSys cpn actors) := by
  have h0 : nClaimed (initSys cpn actors).reqs = 0 := by
    rw [nClaimed, List.countP_eq_zero]
    intro r hr
    simp only [initSys, List.mem_map] at hr
    obtain ⟨a, _, rfl⟩ := hr
    simp [isClaimedPh]
  refine ⟨?_, ?_, ?_, ?_, ?_, ?_, ?_⟩
  · simp only [initSys, List.map_map]
    have hcomp : (ReqState.actor ∘ fun a => ({ actor := a, phase := Phase.start } : ReqState))
        = id := rfl
    rw [hcomp, List.map_id]
  · rw [h0]
    simp only [initSys, setRem, Nat.cast_zero, sub_zero, ← hrem]
  · intro c hc
    simp [initSys] at hc
  · intro a
    simp only [initSys, List.countP_map, List.countP_nil]
    symm
    rw [List.countP_eq_zero]
    intro x hx
    simp [Function.comp, holding]
  · intro r hr
    simp only [initSys, List.mem_map] at hr
    obtain ⟨a, _, rfl⟩ := hr
    rfl
  · rintro ⟨r, hr, hst⟩
    simp only [initSys, List.mem_map] at hr
    obtain ⟨a, _, rfl⟩ := hr
    simp [stalled] at hst
  · rw [h0]
    exact Nat.zero_le K

@[simp] theorem holding_start : holding Phase.start = false := rfl

@[simp] theorem holding_gotCoupon (c : Nat) : holding (Phase.gotCoupon c) = false := rfl

@[simp] theorem holding_reserved (c : Nat) : holding (Phase.reserved c) = true := rfl

@[simp] theorem holding_compensate (c : Nat) : holding (Phase.compensate c) = true := rfl

@[simp] theorem holding_claimed : holding (Phase.finished Outcome.claimed) = true := rfl

@[simp] theorem holding_noStock : holding (Phase.finished Outcome.noStock) = false := rfl

@[simp] theorem stalled_compensate (c : Nat) : stalled (Phase.compensate c) = true := rfl

@[simp] theorem stalled_noStock : stalled (Phase.finished Outcome.noStock) = true := rfl

theorem nClaimed_set_eq (l : List ReqState) (i : Nat) (h : i < l.length) (r' : ReqState)
    (hp : isClaimedPh ((l.get ⟨i, h⟩).phase) = isClaimedPh r'.phase) :
    nClaimed (l.set i r') = nClaimed l := by
  unfold nClaimed
  exact countP_set_eq (fun x => isClaimedPh x.phase) l i r' h hp

theorem nClaimed_set_incr (l : List ReqState) (i : Nat) (h : i < l.length) (r' : ReqState)
    (hold : isClaimedPh ((l.get ⟨i, h⟩).phase) = false)
    (hnew : isClaimedPh r'.phase = true) :
    nClaimed (l.set i r') = nClaimed l + 1 := by
  have hbal := countP_set_balance (fun x => isClaimedPh x.phase) l i r' h
  rw [hold, hnew] at hbal
  simp only [Bool.false_eq_true, if_false, if_true] at hbal
  unfold nClaimed
  omega

theorem inv_step (cpn : Coupon) (K : Nat) (actors : List String) (s : Sys) (i : Nat)
    (hnd : actors.Nodup) (hinv : Inv cpn K actors s) :
    Inv cpn K actors (step cpn.name s i) := by
  cases hget : s.reqs.get? i with
  | none =>
    simp only [step, hget]
    exact hinv
  | some r =>
    obtain ⟨hlen, hgetl⟩ := List.get?_eq_some.1 hget
    have hmem : r ∈ s.reqs := hgetl ▸ List.get_mem s.reqs i hlen
    have hnd' : (s.reqs.map ReqState.actor).Nodup := by
      rw [hinv.hact]; exact hnd
    cases hph : r.phase with
    | start =>
      have hgc := getCouponByName_inv s.db cpn
        ((K : Int) - (nClaimed s.reqs : Int)) hinv.hcoup
      have hstep : step cpn.name s i =
          ⟨s.db, s.reqs.set i { r with phase := .gotCoupon cpn.id }⟩ := by
        simp only [step, hget, stepReq, hph, hgc]
        rfl
      rw [hstep]
      have hnc : nClaimed (s.reqs.set i { r with phase := .gotCoupon cpn.id })
          = nClaimed s.reqs :=
        nClaimed_set_eq s.reqs i hlen _ (by rw [hgetl, hph]; rfl)
      refine ⟨?_, ?_, ?_, ?_, ?_, ?_, ?_⟩
      · exact (map_actor_set s.reqs i r { r with phase := .gotCoupon cpn.id }
          hget rfl).trans hinv.hact
      · rw [hnc]; exact hinv.hcoup
      · exact hinv.hfields
      · intro a
        rw [hinv.hcount a]
        symm
        apply countP_set_eq _ _ i _ hlen
        rw [hgetl, hph]
        rfl
      · intro r'' hr''
        rcases List.mem_or_eq_of_mem_set hr'' with hold | rfl
        · exact hinv.hphase r'' hold
        · simp [okPhase]
      · rintro ⟨r'', hr'', hst⟩
        rw [hnc]
        rcases List.mem_or_eq_of_mem_set hr'' with hold | rfl
        · exact hinv.hfrozen ⟨r'', hold, hst⟩
        · simp [stalled] at hst
      · rw [hnc]; exact hinv.hbound
    | gotCoupon cid =>
      have hcid : cid = cpn.id := by
        have hok := hinv.hphase r hmem
        rw [hph] at hok
        simpa [okPhase] using hok
      subst hcid
      have hkey := countP_actor_unique s.reqs hnd' i hlen holding
      rw [hgetl, hph] at hkey
      have hc0 : s.db.claims.countP (fun c => c.userId == r.actor) = 0 := by
        rw [hinv.hcount r.actor]
        simpa [holding] using hkey
      have hany : s.db.claims.any
          (fun c => c.userId == r.actor && c.couponId == cpn.id) = false := by
        refine eq_false_of_ne_true ?_
        rw [List.any_eq_true]
        rintro ⟨c, hc, hb⟩
        rw [Bool.and_eq_true] at hb
        have hpos : 0 < s.db.claims.countP (fun c => c.userId == r.actor) :=
          List.countP_pos_iff.2 ⟨c, hc, hb.1⟩
        omega
      have hstep : step cpn.name s i =
          ⟨{ s.db with claims := s.db.claims ++ [⟨r.actor, cpn.id, cpn.name, 0⟩] },
            s.reqs.set i { r with phase := .reserved cpn.id }⟩ := by
        simp only [step, hget, stepReq, hph, createClaimIfNotExists, hany,
          Bool.false_eq_true, if_false, eq_self_iff_true, if_true]
      rw [hstep]
      have hnc : nClaimed (s.reqs.set i { r with phase := .reserved cpn.id })
          = nClaimed s.reqs :=
        nClaimed_set_eq s.reqs i hlen _ (by rw [hgetl, hph]; rfl)
      refine ⟨?_, ?_, ?_, ?_, ?_, ?_, ?_⟩
      · exact (map_actor_set s.reqs i r { r with phase := .reserved cpn.id }
          hget rfl).trans hinv.hact
      · rw [hnc]; exact hinv.hcoup
      · intro c hc
        rcases List.mem_append.1 hc with h | h
        · exact hinv.hfields c h
        · rcases List.mem_singleton.1 h with rfl
          exact ⟨rfl, rfl⟩
      · intro a
        have hbal := countP_set_balance
          (fun x => x.actor == a && holding x.phase) s.reqs i
          { r with phase := .reserved cpn.id } hlen
        rw [hgetl] at hbal
        rw [List.countP_append, hinv.hcount a]
        simp only [hph, holding, Bool.and_false, if_false, List.countP_cons,
          List.countP_nil] at hbal ⊢
        cases hra : (r.actor == a) <;> simp [hra] at hbal ⊢ <;> omega
      · intro r'' hr''
        rcases List.mem_or_eq_of_mem_set hr'' with hold | rfl
        · exact hinv.hphase r'' hold
        · simp [okPhase]
      · rintro ⟨r'', hr'', hst⟩
        rw [hnc]
        rcases List.mem_or_eq_of_mem_set hr'' with hold | rfl
        · exact hinv.hfrozen ⟨r'', hold, hst⟩
        · simp [stalled] at hst
      · rw [hnc]; exact hinv.hbound
    | reserved cid =>
      have hcid : cid = cpn.id := by
        have hok := hinv.hphase r hmem
        rw [hph] at hok
        simpa [okPhase] using hok
      subst hcid
      by_cases hv : (1 : Int) ≤ (K : Int) - (nClaimed s.reqs : Int)
      · have hdec : decCoupons cpn.id 1 s.db.coupons =
            some [setRem cpn ((K : Int) - (nClaimed s.reqs : Int) - 1)] := by
          rw [hinv.hcoup]
          simp [decCoupons, setRem, hv]
        have hstep : step cpn.name s i =
            ⟨{ s.db with
                coupons := [setRem cpn ((K : Int) - (nClaimed s.reqs : Int) - 1)] },
              s.reqs.set i { r with phase := .finished .claimed }⟩ := by
          simp only [step, hget, stepReq, hph, decrementStock, hdec]
        rw [hstep]
        have hnc : nClaimed (s.reqs.set i { r with phase := .finished .claimed })
            = nClaimed s.reqs + 1 :=
          nClaimed_set_incr s.reqs i hlen _ (by rw [hgetl, hph]; rfl) rfl
        refine ⟨?_, ?_, ?_, ?_, ?_, ?_, ?_⟩
        · exact (map_actor_set s.reqs i r { r with phase := .finished .claimed }
            hget rfl).trans hinv.hact
        · rw [hnc]
          have harith : (K : Int) - (nClaimed s.reqs : Int) - 1
              = (K : Int) - ((nClaimed s.reqs + 1 : Nat) : Int) := by
            push_cast
            ring
          rw [← harith]
        · exact hinv.hfields
        · intro a
          rw [hinv.hcount a]
          symm
          apply countP_set_eq _ _ i _ hlen
          rw [hgetl, hph]
          rfl
        · intro r'' hr''
          rcases List.mem_or_eq_of_mem_set hr'' with hold | rfl
          · exact hinv.hphase r'' hold
          · simp [okPhase]
        · rintro ⟨r'', hr'', hst⟩
          rcases List.mem_or_eq_of_mem_set hr'' with hold | rfl
          · have hk := hinv.hfrozen ⟨r'', hold, hst⟩
            omega
          · simp [stalled] at hst
        · rw [hnc]
          omega
      · have hdec : decCoupons cpn.id 1 s.db.coupons = none := by
          rw [hinv.hcoup]
          simp [decCoupons, setRem, hv]
        have hstep : step cpn.name s i =
            ⟨s.db, s.reqs.set i { r with phase := .compensate cpn.id }⟩ := by
          simp only [step, hget, stepReq, hph, decrementStock, hdec]
        rw [hstep]
        have hnc : nClaimed (s.reqs.set i { r with phase := .compensate cpn.id })
            = nClaimed s.reqs :=
          nClaimed_set_eq s.reqs i hlen _ (by rw [hgetl, hph]; rfl)
        refine ⟨?_, ?_, ?_, ?_, ?_, ?_, ?_⟩
        · exact (map_actor_set s.reqs i r { r with phase := .compensate cpn.id }
            hget rfl).trans hinv.hact
        · rw [hnc]; exact hinv.hcoup
        · exact hinv.hfields
        · intro a
          rw [hinv.hcount a]
          symm
          apply countP_set_eq _ _ i _ hlen
          rw [hgetl, hph]
          rfl
        · intro r'' hr''
          rcases List.mem_or_eq_of_mem_set hr'' with hold | rfl
          · exact hinv.hphase r'' hold
          · simp [okPhase]
        · intro _
          rw [hnc]
          have hb := hinv.hbound
          omega
        · rw [hnc]; exact hinv.hbound
    | compensate cid =>
      have hcid : cid = cpn.id := by
        have hok := hinv.hphase r hmem
        rw [hph] at hok
        simpa [okPhase] using hok
      subst hcid
      have hstep : step cpn.name s i =
          ⟨deleteClaim s.db r.actor cpn.id,
            s.reqs.set i { r with phase := .finished .noStock }⟩ := by
        simp only [step, hget, stepReq, hph]
      rw [hstep]
      have hkey := countP_actor_unique s.reqs hnd' i hlen holding
      rw [hgetl, hph] at hkey
      have hc1 : s.db.claims.countP (fun c => c.userId == r.actor) = 1 := by
        rw [hinv.hcount r.actor]
        simpa [holding] using hkey
      have hnc : nClaimed (s.reqs.set i { r with phase := .finished .noStock })
          = nClaimed s.reqs :=
        nClaimed_set_eq s.reqs i hlen _ (by rw [hgetl, hph]; rfl)
      have hfrozenK : nClaimed s.reqs = K :=
        hinv.hfrozen ⟨r, hmem, by rw [hph]; rfl⟩
      refine ⟨?_, ?_, ?_, ?_, ?_, ?_, ?_⟩
      · exact (map_actor_set s.reqs i r { r with phase := .finished .noStock }
          hget rfl).trans hinv.hact
      · rw [hnc]; exact hinv.hcoup
      · intro c hc
        exact hinv.hfields c (List.mem_of_mem_eraseP hc)
      · intro a
        have hbal := countP_set_balance
          (fun x => x.actor == a && holding x.phase) s.reqs i
          { r with phase := .finished .noStock } hlen
        rw [hgetl] at hbal
        simp only [hph, holding_compensate, holding_noStock, Bool.and_true,
          Bool.and_false, Bool.false_eq_true, if_false] at hbal
        by_cases hra : r.actor = a
        · subst hra
          have hal : ∀ c ∈ s.db.claims,
              (fun c => c.userId == r.actor && c.couponId == cpn.id) c =
                (fun c => c.userId == r.actor) c := by
            intro c hc
            have hf := (hinv.hfields c hc).1
            simp [hf]
          have hpos : 0 < s.db.claims.countP (fun c => c.userId == r.actor) := by
            omega
          have herase := countP_eraseP_aligned
            (fun c => c.userId == r.actor && c.couponId == cpn.id)
            (fun c => c.userId == r.actor) s.db.claims hal hpos
          have hreqs1 : s.reqs.countP
              (fun x => x.actor == r.actor && holding x.phase) = 1 := by
            rw [← hinv.hcount r.actor]
            exact hc1
          simp only [deleteClaim]
          simp only [beq_self_eq_true, if_true] at hbal
          omega
        · have hbeq : (r.actor == a) = false := by
            simpa using hra
          have hdisj : ∀ c ∈ s.db.claims,
              (fun c => c.userId == r.actor && c.couponId == cpn.id) c = true →
                (fun c => c.userId == a) c = false := by
            intro c hc hp
            rw [Bool.and_eq_true] at hp
            have huid : c.userId = r.actor := by simpa using hp.1
            show (c.userId == a) = false
            rw [huid]
            exact hbeq
          have herase := countP_eraseP_disjoint
            (fun c => c.userId == r.actor && c.couponId == cpn.id)
            (fun c => c.userId == a) s.db.claims hdisj
          simp only [deleteClaim]
          rw [herase, hinv.hcount a]
          simp only [hbeq, Bool.false_eq_true, if_false] at hbal
          omega
      · intro r'' hr''
        rcases List.mem_or_eq_of_mem_set hr'' with hold | rfl
        · exact hinv.hphase r'' hold
        · simp [okPhase]
      · intro _
        rw [hnc]
        exact hfrozenK
      · rw [hnc]; exact hinv.hbound
    | finished o =>
      have hstep : step cpn.name s i = s := by
        simp only [step, hget, stepReq, hph]
        rw [set_get?_self s.reqs i r hget]
      rw [hstep]
      exact hinv

theorem inv_run (cpn : Coupon) (K : Nat) (actors : List String) (s : Sys)
    (sched : List Nat) (hnd : actors.Nodup) (hinv : Inv cpn K actors s) :
    Inv cpn K actors (run cpn.name s sched) := by
  induction sched generalizing s with
  | nil => exact hinv
  | cons i sched ih => exact ih _ (inv_step cpn K actors s i hnd hinv)

theorem countP_partition {α : Type} (p q : α → Bool) (l : List α)
    (h : ∀ x ∈ l, (p x = true ∨ q x = true) ∧ ¬(p x = true ∧ q x = true)) :
    l.countP p + l.countP q = l.length := by
  induction l with
  | nil => rfl
  | cons a as ih =>
    have ha := h a (List.mem_cons_self _ _)
    have ih' := ih (fun x hx => h x (List.mem_cons_of_mem _ hx))
    rw [List.countP_cons, List.countP_cons, List.length_cons]
    rcases ha.1 with hp | hq
    · have hq0 : q a = false := by
        cases hqa : q a
        · rfl
        · exact absurd ⟨hp, hqa⟩ ha.2
      simp only [hp, hq0, Bool.false_eq_true, if_false, if_true]
      omega
    · have hp0 : p a = false := by
        cases hpa : p a
        · rfl
        · exact absurd ⟨hpa, hq⟩ ha.2
      simp only [hq, hp0, Bool.false_eq_true, if_false, if_true]
      omega

/-- C1 (confirmed).  No overselling: start from a coupon stored with
`total = remaining = K` and no claims, let `N ≥ K` distinct actors each run
one claim request, interleaving their four atomic store calls under an
arbitrary schedule.  Once every request has finished, exactly `K` ended
`Claimed`, the other `N - K` ended `NoStock`, and the coupon's
`remaining_amount` is `0` — the conditional decrement alone enforces the
bound, for every schedule. -/
theorem no_overselling (cpn : Coupon) (K : Nat) (actors : List String)
    (sched : List Nat)
    (hamt : cpn.amount = (K : Int)) (hrem : cpn.remainingAmount = (K : Int))
    (hnd : actors.Nodup) (hK : K ≤ actors.length)
    (hdone : ∀ r ∈ (run cpn.name (initSys cpn actors) sched).reqs,
      isFinished r.phase = true) :
    nClaimed (run cpn.name (initSys cpn actors) sched).reqs = K ∧
    nNoStock (run cpn.name (initSys cpn actors) sched).reqs = actors.length - K ∧
    (run cpn.name (initSys cpn actors) sched).db.coupons = [setRem cpn 0] := by
  have hinv := inv_run cpn K actors (initSys cpn actors) sched hnd
    (inv_init cpn K actors hrem)
  set s := run cpn.name (initSys cpn actors) sched with hs
  have hlenN : s.reqs.length = actors.length := by
    rw [← hinv.hact, List.length_map]
  have hpart : s.reqs.countP (fun r => isClaimedPh r.phase) +
      s.reqs.countP (fun r => isNoStockPh r.phase) = s.reqs.length := by
    apply countP_partition
    intro x hx
    have hfin := hdone x hx
    have hok := hinv.hphase x hx
    constructor
    · cases hxp : x.phase with
      | finished o =>
        cases o with
        | claimed => left; simp [isClaimedPh, hxp]
        | noStock => right; simp [isNoStockPh, hxp]
        | alreadyClaimed => rw [hxp] at hok; simp [okPhase] at hok
        | notFound => rw [hxp] at hok; simp [okPhase] at hok
      | start => rw [hxp] at hfin; simp [isFinished] at hfin
      | gotCoupon c => rw [hxp] at hfin; simp [isFinished] at hfin
      | reserved c => rw [hxp] at hfin; simp [isFinished] at hfin
      | compensate c => rw [hxp] at hfin; simp [isFinished] at hfin
    · rintro ⟨hp, hq⟩
      have h1 : x.phase = Phase.finished Outcome.claimed := by
        simpa [isClaimedPh] using hp
      have h2 : x.phase = Phase.finished Outcome.noStock := by
        simpa [isNoStockPh] using hq
      rw [h1] at h2
      cases h2
  have hbound := hinv.hbound
  have hCS : nClaimed s.reqs + nNoStock s.reqs = actors.length := by
    rw [← hlenN]
    exact hpart
  have hC : nClaimed s.reqs = K := by
    by_cases hS : nNoStock s.reqs = 0
    · rw [nNoStock] at hS
      rw [nClaimed] at hbound hCS ⊢
      omega
    · have hpos : 0 < s.reqs.countP (fun r => isNoStockPh r.phase) :=
        Nat.pos_of_ne_zero (by rw [nNoStock] at hS; exact hS)
      obtain ⟨x, hx, hxp⟩ := List.countP_pos_iff.1 hpos
      have hxph : x.phase = Phase.finished Outcome.noStock := by
        simpa [isNoStockPh] using hxp
      exact hinv.hfrozen ⟨x, hx, by rw [hxph]; rfl⟩
  refine ⟨hC, by omega, ?_⟩
  have hcoup := hinv.hcoup
  rw [hC] at hcoup
  simpa using hcoup

def cpnW1 : Coupon := ⟨0, "x", 1, 1, 0, 0, true, 0⟩

theorem no_overselling_witness :
    nClaimed (run cpnW1.name (initSys cpnW1 ["a", "b"]) [0, 0, 0, 1, 1, 1, 1]).reqs = 1 ∧
    nNoStock (run cpnW1.name (initSys cpnW1 ["a", "b"]) [0, 0, 0, 1, 1, 1, 1]).reqs =
      ["a", "b"].length - 1 ∧
    (run cpnW1.name (initSys cpnW1 ["a", "b"]) [0, 0, 0, 1, 1, 1, 1]).db.coupons =
      [setRem cpnW1 0] :=
  no_overselling cpnW1 1 ["a", "b"] [0, 0, 0, 1, 1, 1, 1] rfl rfl
    (by decide) (by decide) (by decide)

/-- C4 (confirmed).  Compensation correctness: in any interleaved execution
from a fresh coupon, an actor whose request ended `NoStock` (reservation
succeeded, the decrement then failed, the reservation was released) holds no
claim record in the store, and does not appear in the `claimants` list
reported by the query facade. -/
theorem compensation_correctness (cpn : Coupon) (K : Nat) (actors : List String)
    (sched : List Nat) (i : Nat) (a : String)
    (hrem : cpn.remainingAmount = (K : Int)) (hnd : actors.Nodup)
    (hi : (run cpn.name (initSys cpn actors) sched).reqs.get? i =
      some ⟨a, .finished .noStock⟩) :
    (run cpn.name (initSys cpn actors) sched).db.claims.countP
      (fun c => c.userId == a) = 0 ∧
    ∀ d, GetCouponDetails noDetailFaults
        (run cpn.name (initSys cpn actors) sched).db cpn.name = Except.ok d →
      a ∉ d.claimedBy := by
  have hinv := inv_run cpn K actors (initSys cpn actors) sched hnd
    (inv_init cpn K actors hrem)
  set s := run cpn.name (initSys cpn actors) sched with hs
  obtain ⟨hlen, hgetl⟩ := List.get?_eq_some.1 hi
  have hnd' : (s.reqs.map ReqState.actor).Nodup := by
    rw [hinv.hact]; exact hnd
  have hkey := countP_actor_unique s.reqs hnd' i hlen holding
  rw [hgetl] at hkey
  have hc0 : s.db.claims.countP (fun c => c.userId == a) = 0 := by
    rw [hinv.hcount a]
    simpa using hkey
  refine ⟨hc0, ?_⟩
  intro d hd hmem
  have hgc := getCouponByName_inv s.db cpn _ hinv.hcoup
  simp only [GetCouponDetails, noDetailFaults, hgc, Bool.false_eq_true, if_false,
    getClaimsByCouponName] at hd
  have hded : d.claimedBy =
      (s.db.claims.filter (fun c => c.couponName == cpn.name)).map
        (fun c => c.userId) := by
    have := Except.ok.inj hd
    rw [← this]
  rw [hded] at hmem
  obtain ⟨c, hcf, hcu⟩ := List.mem_map.1 hmem
  have hcl : c ∈ s.db.claims := (List.mem_filter.1 hcf).1
  have hpos : 0 < s.db.claims.countP (fun c => c.userId == a) :=
    List.countP_pos_iff.2 ⟨c, hcl, by simp [hcu]⟩
  omega

def cpnW4 : Coupon := ⟨0, "x", 1, 1, 0, 0, true, 0⟩

theorem compensation_correctness_witness :
    (run cpnW4.name (initSys cpnW4 ["a", "b"]) [0, 0, 1, 1, 0, 1, 1]).db.claims.countP
      (fun c => c.userId == "b") = 0 ∧
    ∀ d, GetCouponDetails noDetailFaults
        (run cpnW4.name (initSys cpnW4 ["a", "b"]) [0, 0, 1, 1, 0, 1, 1]).db
        cpnW4.name = Except.ok d →
      "b" ∉ d.claimedBy :=
  compensation_correctness cpnW4 1 ["a", "b"] [0, 0, 1, 1, 0, 1, 1] 1 "b" rfl
    (by decide) (by decide)

end CouponSystem
